import Mathlib

/-!
Verification of the scale / tick-generation core of the `plotpen` library
(`plotpen/ticks.py` and `plotpen/scale.py`).

The Python code computes over IEEE floats; this development embeds it over `ℚ`
(exact real semantics): `floor(log10 x)` becomes an exact integer logarithm,
the comparisons `error >= sqrt(50)` / `sqrt(10)` / `sqrt(2)` become the
equivalent exact comparisons `50 ≤ error^2` / `10 ≤ error^2` / `2 ≤ error^2`
(valid since `error > 0`), and Python's `round` (round-half-to-even) is
modelled exactly.  Python code paths that raise an exception
(`ZeroDivisionError` from `x / 0`, `ValueError` from `log10` of a
non-positive number) are modelled by `Option`, with `none` meaning "raises".
-/

/-- Fuel-driven floor logarithm on naturals: `natLogAux b fuel n` is
`⌊log_b n⌋` whenever `0 < n ≤ fuel` and `2 ≤ b`.  Structural recursion on the
fuel keeps it kernel-computable. -/
def natLogAux (b : ℕ) : ℕ → ℕ → ℕ
  | 0, _ => 0
  | fuel + 1, n => if n < b then 0 else natLogAux b fuel (n / b) + 1

/-- `⌊log_b n⌋` for `0 < n`, `2 ≤ b`. -/
def natLogB (b n : ℕ) : ℕ := natLogAux b n n

/-- Fuel-driven ceiling logarithm on naturals: smallest `k` with `n ≤ b ^ k`. -/
def natClogAux (b : ℕ) : ℕ → ℕ → ℕ
  | 0, _ => 0
  | fuel + 1, n => if n ≤ 1 then 0 else natClogAux b fuel ((n + b - 1) / b) + 1

/-- Smallest `k` with `n ≤ b ^ k`, for `0 < n`, `2 ≤ b`. -/
def natClogB (b n : ℕ) : ℕ := natClogAux b n n

/-- Exact `⌊log_b q⌋` for a positive rational `q` (the exact-real meaning of
Python's `floor(log10(q))` when `b = 10`). -/
def qlog (b : ℕ) (q : ℚ) : ℤ :=
  if 1 ≤ q then (natLogB b ⌊q⌋.toNat : ℤ) else -(natClogB b ⌈q⁻¹⌉.toNat : ℤ)

theorem natLogAux_spec (b : ℕ) (hb : 2 ≤ b) :
    ∀ fuel n, 0 < n → n ≤ fuel →
      b ^ natLogAux b fuel n ≤ n ∧ n < b ^ (natLogAux b fuel n + 1) := by
  intro fuel
  induction fuel with
  | zero => intro n hn hfuel; omega
  | succ fuel ih =>
    intro n hn hfuel
    rw [natLogAux]
    by_cases hnb : n < b
    · simp only [if_pos hnb]
      constructor
      · simpa using hn
      · simpa using hnb
    · simp only [if_neg hnb]
      push_neg at hnb
      have hb0 : 0 < b := by omega
      have hm0 : 0 < n / b := Nat.one_le_div_iff hb0 |>.mpr hnb
      have hmlt : n / b < n := Nat.div_lt_self hn (by omega)
      have hmfuel : n / b ≤ fuel := by omega
      obtain ⟨h1, h2⟩ := ih (n / b) hm0 hmfuel
      constructor
      · calc b ^ (natLogAux b fuel (n / b) + 1)
            = b ^ natLogAux b fuel (n / b) * b := by ring
          _ ≤ (n / b) * b := Nat.mul_le_mul_right b h1
          _ ≤ n := Nat.div_mul_le_self n b
      · have hmod : n < b * (n / b) + b := by
          have := Nat.div_add_mod n b
          have := Nat.mod_lt n hb0
          omega
        have hsucc : n / b + 1 ≤ b ^ (natLogAux b fuel (n / b) + 1) := h2
        calc n < b * (n / b) + b := hmod
          _ = (n / b + 1) * b := by ring
          _ ≤ b ^ (natLogAux b fuel (n / b) + 1) * b := Nat.mul_le_mul_right b hsucc
          _ = b ^ (natLogAux b fuel (n / b) + 1 + 1) := by ring

theorem natLogB_spec (b n : ℕ) (hb : 2 ≤ b) (hn : 0 < n) :
    b ^ natLogB b n ≤ n ∧ n < b ^ (natLogB b n + 1) :=
  natLogAux_spec b hb n n hn le_rfl

theorem natClogAux_spec (b : ℕ) (hb : 2 ≤ b) :
    ∀ fuel n, 0 < n → n ≤ fuel →
      n ≤ b ^ natClogAux b fuel n ∧
        (2 ≤ n → ∃ j, natClogAux b fuel n = j + 1 ∧ b ^ j < n) := by
  intro fuel
  induction fuel with
  | zero => intro n hn hfuel; omega
  | succ fuel ih =>
    intro n hn hfuel
    rw [natClogAux]
    by_cases hn1 : n ≤ 1
    · simp only [if_pos hn1]
      refine ⟨by simpa using hn1, ?_⟩
      intro h2; omega
    · simp only [if_neg hn1]
      push_neg at hn1
      have hb0 : 0 < b := by omega
      set m := (n + b - 1) / b with hm
      have hm0 : 0 < m := by
        rw [hm]
        exact Nat.one_le_div_iff hb0 |>.mpr (by omega)
      have hmlt : m < n := by
        rw [hm]
        rw [Nat.div_lt_iff_lt_mul hb0]
        have hn2 : (2 : ℕ) ≤ n := by omega
        have hab : n + b ≤ n * b := add_le_mul hn2 hb
        omega
      have hmfuel : m ≤ fuel := by omega
      obtain ⟨h1, h2⟩ := ih m hm0 hmfuel
      have hdm := Nat.div_add_mod (n + b - 1) b
      have hmodlt := Nat.mod_lt (n + b - 1) hb0
      rw [← hm] at hdm
      have hcomm : m * b = b * m := Nat.mul_comm m b
      have hnmb : n ≤ m * b := by omega
      constructor
      · calc n ≤ m * b := hnmb
          _ ≤ b ^ natClogAux b fuel m * b := Nat.mul_le_mul_right b h1
          _ = b ^ (natClogAux b fuel m + 1) := by ring
      · intro _
        refine ⟨natClogAux b fuel m, rfl, ?_⟩
        have hmbn : m * b ≤ n + b - 1 := by
          rw [hm]; exact Nat.div_mul_le_self (n + b - 1) b
        by_cases hm1 : m ≤ 1
        · have hmeq : m = 1 := by omega
          have hfuel1 : ∃ f, fuel = f + 1 := ⟨fuel - 1, by omega⟩
          obtain ⟨f, hf⟩ := hfuel1
          rw [hmeq, hf]
          rw [natClogAux]
          simp only [if_pos le_rfl]
          simpa using hn1
        · push_neg at hm1
          have hm2 : (2 : ℕ) ≤ m := by omega
          obtain ⟨j, hj1, hj2⟩ := h2 hm2
          rw [hj1]
          have hjm : b ^ j ≤ m - 1 := by omega
          have hstep : b ^ (j + 1) ≤ (m - 1) * b := by
            calc b ^ (j + 1) = b ^ j * b := by ring
              _ ≤ (m - 1) * b := Nat.mul_le_mul_right b hjm
          have hexp : (m - 1) * b + b = m * b := by
            have hsub : m - 1 + 1 = m := by omega
            calc (m - 1) * b + b = (m - 1 + 1) * b := by ring
              _ = m * b := by rw [hsub]
          have hfin : (m - 1) * b < n := by omega
          exact lt_of_le_of_lt hstep hfin

theorem natClogB_spec (b n : ℕ) (hb : 2 ≤ b) (hn : 0 < n) :
    n ≤ b ^ natClogB b n ∧ (2 ≤ n → ∃ j, natClogB b n = j + 1 ∧ b ^ j < n) :=
  natClogAux_spec b hb n n hn le_rfl

theorem qlog_spec (b : ℕ) (q : ℚ) (hb : 2 ≤ b) (hq : 0 < q) :
    (b : ℚ) ^ qlog b q ≤ q ∧ q < (b : ℚ) ^ (qlog b q + 1) := by
  have hb1 : (1 : ℚ) < (b : ℚ) := by exact_mod_cast hb.trans_lt' one_lt_two
  rw [qlog]
  by_cases h1 : 1 ≤ q
  · simp only [if_pos h1]
    have hfl : 1 ≤ ⌊q⌋ := Int.le_floor.mpr (by exact_mod_cast h1)
    set n : ℕ := ⌊q⌋.toNat with hn
    have hn0 : 0 < n := by omega
    have hcast : (n : ℚ) = (⌊q⌋ : ℚ) := by
      rw [hn]; exact_mod_cast Int.toNat_of_nonneg (by omega)
    obtain ⟨h2, h3⟩ := natLogB_spec b n hb hn0
    constructor
    · rw [zpow_natCast]
      calc ((b : ℚ) ^ natLogB b n) = ((b ^ natLogB b n : ℕ) : ℚ) := by push_cast; ring
        _ ≤ (n : ℚ) := by exact_mod_cast h2
        _ = (⌊q⌋ : ℚ) := hcast
        _ ≤ q := Int.floor_le q
    · have : ((natLogB b n : ℤ) + 1) = ((natLogB b n + 1 : ℕ) : ℤ) := by push_cast; ring
      rw [this, zpow_natCast]
      have hq1 : q < (n : ℚ) + 1 := by
        rw [hcast]; exact Int.lt_floor_add_one q
      have : (n : ℚ) + 1 ≤ ((b ^ (natLogB b n + 1) : ℕ) : ℚ) := by exact_mod_cast h3
      calc q < (n : ℚ) + 1 := hq1
        _ ≤ ((b ^ (natLogB b n + 1) : ℕ) : ℚ) := this
        _ = (b : ℚ) ^ (natLogB b n + 1) := by push_cast; ring
  · simp only [if_neg h1]
    push_neg at h1
    have hr1 : 1 < q⁻¹ := (one_lt_inv₀ hq).mpr h1
    have hr0 : 0 < q⁻¹ := by positivity
    have hcl : 2 ≤ ⌈q⁻¹⌉ := by
      have hle := Int.le_ceil q⁻¹
      have h2 : (1 : ℚ) < (⌈q⁻¹⌉ : ℚ) := lt_of_lt_of_le hr1 hle
      have h3 : (1 : ℤ) < ⌈q⁻¹⌉ := by exact_mod_cast h2
      omega
    set m : ℕ := ⌈q⁻¹⌉.toNat with hm
    have hm2 : 2 ≤ m := by omega
    have hmcast : (m : ℚ) = (⌈q⁻¹⌉ : ℚ) := by
      rw [hm]; exact_mod_cast Int.toNat_of_nonneg (by omega)
    obtain ⟨h2, h3⟩ := natClogB_spec b m hb (by omega)
    obtain ⟨j, hj1, hj2⟩ := h3 hm2
    constructor
    · rw [zpow_neg, zpow_natCast]
      rw [inv_le_comm₀ (by positivity) hq]
      calc q⁻¹ ≤ (⌈q⁻¹⌉ : ℚ) := Int.le_ceil q⁻¹
        _ = (m : ℚ) := hmcast.symm
        _ ≤ ((b ^ natClogB b m : ℕ) : ℚ) := by exact_mod_cast h2
        _ = (b : ℚ) ^ natClogB b m := by push_cast; ring
    · rw [hj1]
      have hexp : (-((j : ℤ) + 1) + 1) = -(j : ℤ) := by ring
      have : (-((j + 1 : ℕ) : ℤ) + 1) = -(j : ℤ) := by push_cast; ring
      rw [this, zpow_neg, zpow_natCast]
      rw [lt_inv_comm₀ hq (by positivity)]
      have hjm : (b ^ j : ℚ) ≤ (m : ℚ) - 1 := by
        have : (b ^ j : ℕ) ≤ m - 1 := by omega
        have hcast2 : ((b ^ j : ℕ) : ℚ) ≤ ((m - 1 : ℕ) : ℚ) := by exact_mod_cast this
        push_cast [Nat.cast_sub (by omega : 1 ≤ m)] at hcast2
        linarith
      have hlt : (m : ℚ) - 1 < q⁻¹ := by
        rw [hmcast]
        have := Int.ceil_lt_add_one q⁻¹
        linarith
      calc (b : ℚ) ^ j ≤ (m : ℚ) - 1 := hjm
        _ < q⁻¹ := hlt

theorem qlog_unique (b : ℕ) (q : ℚ) (p : ℤ) (hb : 2 ≤ b) (hq : 0 < q)
    (h1 : (b : ℚ) ^ p ≤ q) (h2 : q < (b : ℚ) ^ (p + 1)) : qlog b q = p := by
  have hb1 : (1 : ℚ) < (b : ℚ) := by exact_mod_cast hb.trans_lt' one_lt_two
  obtain ⟨g1, g2⟩ := qlog_spec b q hb hq
  have hlt1 : (b : ℚ) ^ p < (b : ℚ) ^ (qlog b q + 1) := lt_of_le_of_lt h1 g2
  have hlt2 : (b : ℚ) ^ qlog b q < (b : ℚ) ^ (p + 1) := lt_of_le_of_lt g1 h2
  have e1 : p < qlog b q + 1 := (zpow_lt_zpow_iff_right₀ hb1).mp hlt1
  have e2 : qlog b q < p + 1 := (zpow_lt_zpow_iff_right₀ hb1).mp hlt2
  omega

theorem qlog_mono (b : ℕ) (x y : ℚ) (hb : 2 ≤ b) (hx : 0 < x) (hxy : x ≤ y) :
    qlog b x ≤ qlog b y := by
  have hb1 : (1 : ℚ) < (b : ℚ) := by exact_mod_cast hb.trans_lt' one_lt_two
  obtain ⟨g1, _⟩ := qlog_spec b x hb hx
  obtain ⟨_, g4⟩ := qlog_spec b y hb (lt_of_lt_of_le hx hxy)
  have : (b : ℚ) ^ qlog b x < (b : ℚ) ^ (qlog b y + 1) :=
    lt_of_le_of_lt (le_trans g1 hxy) g4
  have := (zpow_lt_zpow_iff_right₀ hb1).mp this
  omega

/-- Python's `round` on exact values: round half to even (banker's rounding). -/
def pyround (q : ℚ) : ℤ :=
  if q - ⌊q⌋ < 1/2 then ⌊q⌋
  else if 1/2 < q - ⌊q⌋ then ⌊q⌋ + 1
  else if ⌊q⌋ % 2 = 0 then ⌊q⌋ else ⌊q⌋ + 1

theorem le_pyround (q : ℚ) : q - 1/2 ≤ (pyround q : ℚ) := by
  have h1 := Int.floor_le q
  have h2 := Int.lt_floor_add_one q
  rw [pyround]
  split_ifs <;> push_cast <;> linarith

theorem pyround_le (q : ℚ) : (pyround q : ℚ) ≤ q + 1/2 := by
  have h1 := Int.floor_le q
  have h2 := Int.lt_floor_add_one q
  rw [pyround]
  split_ifs <;> push_cast <;> linarith

/-- Python's `int()` truncation toward zero on an exact rational. -/
def pytrunc (q : ℚ) : ℤ := q.num / (q.den : ℤ)

/-!
## `plotpen/ticks.py`

`tick_increment`, `ticks`, `tick_step`, `nice_domain`, translated from the
source.  `none` models a raised Python exception:
`(stop - start) / max(0, count)` raises `ZeroDivisionError` when `count ≤ 0`,
and `log10(step)` raises `ValueError` when `step ≤ 0`.
-/

/-- `tick_increment(start, stop, count)` from `plotpen/ticks.py`.
`error >= sqrt(50)` etc. are rendered as `50 ≤ error ^ 2` etc., equivalent
since `error > 0` on every path that reaches the comparison. -/
def tick_increment (start stop : ℚ) (count : ℤ) : Option ℚ :=
  if count ≤ 0 then none
  else
    let step := (stop - start) / (count : ℚ)
    if step ≤ 0 then none
    else
      let power := qlog 10 step
      let error := step / (10 : ℚ) ^ power
      if 0 ≤ power then
        if 50 ≤ error ^ 2 then some (10 * (10 : ℚ) ^ power)
        else if 10 ≤ error ^ 2 then some (5 * (10 : ℚ) ^ power)
        else if 2 ≤ error ^ 2 then some (2 * (10 : ℚ) ^ power)
        else some ((10 : ℚ) ^ power)
      else
        if 50 ≤ error ^ 2 then some (-(10 : ℚ) ^ (-power) / 10)
        else if 10 ≤ error ^ 2 then some (-(10 : ℚ) ^ (-power) / 5)
        else if 2 ≤ error ^ 2 then some (-(10 : ℚ) ^ (-power) / 2)
        else some (-(10 : ℚ) ^ (-power))

/-- The `{1, 2, 5, 10}` multiplier selected by the `sqrt(50)` / `sqrt(10)` /
`sqrt(2)` thresholds on `error` (spec §4.1 wording), with `error ≥ sqrt(n)`
rendered as `n ≤ error ^ 2`. -/
def mult (error : ℚ) : ℚ :=
  if 50 ≤ error ^ 2 then 10
  else if 10 ≤ error ^ 2 then 5
  else if 2 ≤ error ^ 2 then 2
  else 1

/-- The value `tick_increment` should return according to the spec's words
(§4.1): `multiplier × 10^power` when `power ≥ 0`, and the negative reciprocal
`-10^(-power) / multiplier` when `power < 0`. -/
def tick_increment_spec_fn (start stop : ℚ) (count : ℤ) : ℚ :=
  let step := (stop - start) / (count : ℚ)
  let power := qlog 10 step
  let m := mult (step / (10 : ℚ) ^ power)
  if 0 ≤ power then m * (10 : ℚ) ^ power else -(10 : ℚ) ^ (-power) / m

/-- `tick_step(start, stop, count)` from `plotpen/ticks.py`. -/
def tick_step (start stop : ℚ) (count : ℤ) : Option ℚ :=
  if count ≤ 0 then none
  else
    let step0 := |stop - start| / (count : ℚ)
    if step0 ≤ 0 then none
    else
      let step1 := (10 : ℚ) ^ qlog 10 step0
      let error := step0 / step1
      let step1 :=
        if 50 ≤ error ^ 2 then step1 * 10
        else if 10 ≤ error ^ 2 then step1 * 5
        else if 2 ≤ error ^ 2 then step1 * 2
        else step1
      some (if stop < start then -step1 else step1)

/-- Decodes a `tick_increment` result into the positive tick spacing it
denotes: a positive result is the spacing itself, a negative result `r` is
the reciprocal encoding with spacing `1 / (-r)`. -/
def spacing (r : ℚ) : ℚ := if r < 0 then -r⁻¹ else r

/-- `[(r0 + i) * step for i in range(r1 - r0 + 1)]` (positive-step branch). -/
def tickListMul (r0 r1 : ℤ) (step : ℚ) : List ℚ :=
  (List.range (r1 - r0 + 1).toNat).map (fun i : ℕ => ((r0 + (i : ℤ) : ℤ) : ℚ) * step)

/-- `[(r0 + i) / step for i in range(r1 - r0 + 1)]` (reciprocal branch). -/
def tickListDiv (r0 r1 : ℤ) (s : ℚ) : List ℚ :=
  (List.range (r1 - r0 + 1).toNat).map (fun i : ℕ => ((r0 + (i : ℤ) : ℤ) : ℚ) / s)

/-- The tick list built by `ticks` from the `tick_increment` result `step`,
for an orientation-normalised domain: the `if step > 0` / reciprocal branches
of the source with the `r0`/`r1` rounding-and-nudging written inline
(the source's `r0 += 1` / `r1 -= 1` reassignments are the `if`s), and the
`step == 0 or not isfinite(step)` guard (over `ℚ` every value is finite, so
only `step == 0` is modelled; it is unreachable, but kept for
faithfulness).  In the reciprocal branch `step = -step` of the source is the
`-step` appearing throughout. -/
def ticksBody (start stop step : ℚ) : List ℚ :=
  if step = 0 then []
  else if 0 < step then
    tickListMul
      (if (pyround (start / step) : ℚ) * step < start then pyround (start / step) + 1
       else pyround (start / step))
      (if stop < (pyround (stop / step) : ℚ) * step then pyround (stop / step) - 1
       else pyround (stop / step))
      step
  else
    tickListDiv
      (if (pyround (start * -step) : ℚ) / -step < start then pyround (start * -step) + 1
       else pyround (start * -step))
      (if stop < (pyround (stop * -step) : ℚ) / -step then pyround (stop * -step) - 1
       else pyround (stop * -step))
      (-step)

/-- Body of `ticks(start, stop, count)` after orientation is normalised to
`start ≤ stop` (a raised exception in `tick_increment` propagates). -/
def ticksAsc (start stop : ℚ) (count : ℤ) : Option (List ℚ) :=
  Option.map (ticksBody start stop) (tick_increment start stop count)

/-- `ticks(start, stop, count)` from `plotpen/ticks.py`.  In the source the
`step == 0 or not isfinite(step)` guard returns `[]`; over `ℚ` every value is
finite, so only the `step == 0` arm is modelled (it is in fact unreachable,
but kept for faithfulness). -/
def ticks (start stop : ℚ) (count : ℤ) : Option (List ℚ) :=
  if start = stop ∧ 0 < count then some [start]
  else if stop < start then (ticksAsc stop start count).map List.reverse
  else ticksAsc start stop count

/-- The `while max_iter > 0` loop of `nice_domain`.  The source initialises
`max_iter = 10` but never decrements it, so the loop condition is always
true; `fuel` counts loop iterations, and `none` means the loop has not
returned within `fuel` iterations (or an exception was raised).  `d0` is the
original `domain` argument returned by the post-loop `return domain`, which
is reachable only through the `else: break` arm (`step == 0`). -/
def nice_loop (count : ℤ) (reverse : Bool) (d0 : ℚ × ℚ) :
    ℕ → ℚ → ℚ → Option ℚ → Option (ℚ × ℚ)
  | 0, _, _, _ => none
  | fuel + 1, start, stop, prev =>
    match tick_increment start stop count with
    | none => none
    | some step =>
      if prev = some step then
        some (if reverse then (stop, start) else (start, stop))
      else if 0 < step then
        nice_loop count reverse d0 fuel (⌊start / step⌋ * step)
          (⌈stop / step⌉ * step) (some step)
      else if step < 0 then
        nice_loop count reverse d0 fuel (⌈start * step⌉ / step)
          (⌊stop * step⌋ / step) (some step)
      else some d0

/-- `nice_domain(domain, count)` from `plotpen/ticks.py` (the source's
default is `count = 10`), with the domain as a pair. -/
def nice_domain (lo hi : ℚ) (count : ℤ) (fuel : ℕ) : Option (ℚ × ℚ) :=
  if hi < lo then nice_loop count true (lo, hi) fuel hi lo none
  else nice_loop count false (lo, hi) fuel lo hi none

/-!
## `plotpen/scale.py`

`ScaleLinear.__call__`, the position `ScaleColor.__call__` feeds into the
external palette lookup, and `ScaleLog.ticks` with its `is_major`
classifier.  The log-scale `base` is modelled as a natural number `b ≥ 2`
(the source's `base` is a float, `10` by default; `is_integer_base` is then
always true, and only integer bases have rational-valued logarithmic ticks).
-/

/-- Tick filter selector (`type: Literal["all", "major", "minor"]`). -/
inductive TickT where
  | all : TickT
  | major : TickT
  | minor : TickT
deriving DecidableEq

/-- A linear scale: `domain = [min, max]` plus an optional output range. -/
structure ScaleLinear where
  domain : ℚ × ℚ
  range : Option (ℚ × ℚ)

/-- `ScaleLinear.__call__(value)`: `position = (value - min) / (max - min)`,
then interpolated into the range when one is set.  A degenerate domain
(`max = min`) makes the division raise `ZeroDivisionError`, modelled by
`none`. -/
def ScaleLinear.call (s : ScaleLinear) (value : ℚ) : Option ℚ :=
  if s.domain.2 - s.domain.1 = 0 then none
  else
    let position := (value - s.domain.1) / (s.domain.2 - s.domain.1)
    some (match s.range with
          | some (a, b) => position * b + (1 - position) * a
          | none => position)

/-- `ScaleLinear.ticks(count)`: delegates to `ticks` on the domain. -/
def ScaleLinear.tickList (s : ScaleLinear) (count : ℤ) : Option (List ℚ) :=
  ticks s.domain.1 s.domain.2 count

/-- `ScaleColor.__call__(value)` computes
`rgb2hex(self.cmap(super().__call__(value)))`: the numeric value fed into the
external palette lookup `self.cmap` is exactly the inherited
`ScaleLinear.__call__(value)`. -/
def scale_color_position (s : ScaleLinear) (value : ℚ) : Option ℚ :=
  s.call value

/-- Exact-real `round(log_b t)` for `t > 0`: the unique `n` with
`b^(n - 1/2) ≤ t < b^(n + 1/2)`, i.e. `b^(2n-1) ≤ t² < b^(2n+1)`.  A tie
(`log_b t` an exact half-integer) would need `t² = b^(2n-1)`, impossible for
rational `t` when `b = 10`, so banker's rounding never fires there. -/
def round_log (b : ℕ) (t : ℚ) : ℤ := (qlog b (t ^ 2) + 1).fdiv 2

/-- `is_major(tick)` from `ScaleLog.ticks`: mantissa relative to the nearest
power of `base`, corrected when it rounds up to `base`, compared to 1 within
`1e-3`.  `math.log` of a non-positive tick raises, modelled by `none`. -/
def is_major (b : ℕ) (t : ℚ) : Option Bool :=
  if t ≤ 0 then none
  else
    let i := t / (b : ℚ) ^ round_log b t
    let i := if i * b < (b : ℚ) - 1/2 then i * b else i
    some (decide (|i - 1| < 1/1000))

/-- The inner `for k in ...` loop of `ScaleLog.ticks`: `continue` when the
candidate is below `u`, `break` once it exceeds `v`, collect otherwise. -/
def scanK (u v : ℚ) (f : ℕ → ℚ) : List ℕ → List ℚ
  | [] => []
  | k :: ks =>
    let t := f k
    if t < u then scanK u v f ks
    else if v < t then []
    else t :: scanK u v f ks

/-- `filter` through an `Option`-valued predicate (a raise inside the filter
propagates). -/
def filterOpt (p : ℚ → Option Bool) : List ℚ → Option (List ℚ)
  | [] => some []
  | t :: ts =>
    match p t, filterOpt p ts with
    | some true, some r => some (t :: r)
    | some false, some r => some r
    | _, _ => none

/-- The dense per-decade enumeration of `ScaleLog.ticks` for `u > 0`:
`for i in range(floor(i), j + 1): for k in range(1, ceil(base)): ...` with
candidate `k / base**(-e)` for `e < 0` and `k * base**e` otherwise. -/
def logTicksPos (b : ℕ) (ua va : ℚ) (es : List ℤ) : List ℚ :=
  es.flatMap (fun e =>
    scanK ua va
      (fun k => if e < 0 then (k : ℚ) / (b : ℚ) ^ (-e) else (k : ℚ) * (b : ℚ) ^ e)
      (List.range' 1 (b - 1)))

/-- The dense per-decade enumeration of `ScaleLog.ticks` for `u ≤ 0`:
`for k in range(ceil(base - 1), 1, -1): ...` with the exponent sign test
flipped (`i > 0`). -/
def logTicksNeg (b : ℕ) (ua va : ℚ) (es : List ℤ) : List ℚ :=
  es.flatMap (fun e =>
    scanK ua va
      (fun k => if 0 < e then (k : ℚ) / (b : ℚ) ^ (-e) else (k : ℚ) * (b : ℚ) ^ e)
      (List.range' 2 (b - 2)).reverse)

/-- `ScaleLog.ticks(count, type)` from `plotpen/scale.py`, for an integer
base `b`.  `u, v` are the domain endpoints and `lmin, lmax` the precomputed
`snap_to_int(log_b u)`, `snap_to_int(log_b v)` (rational in the model; for
the claims below the endpoints are exact powers of `b`, where
`snap_to_int(log_b u)` is exactly the integer exponent).  The many-decade
branch maps exponent-space ticks through `b ** x`; a non-integer exponent
would leave `ℚ`, modelled by `none`. -/
def scale_log_ticks (b : ℕ) (u v lmin lmax : ℚ) (count : ℤ) (type : TickT) :
    Option (List ℚ) :=
  let rev := v < u
  let ua := if rev then v else u
  let va := if rev then u else v
  let i := if rev then lmax else lmin
  let j := if rev then lmin else lmax
  let z :=
    if j - i < (count : ℚ) then
      let i0 := ⌊i⌋
      let j0 := ⌈j⌉
      let es := (List.range (j0 + 1 - i0).toNat).map (fun n : ℕ => i0 + (n : ℤ))
      let z0 := if 0 < ua then logTicksPos b ua va es else logTicksNeg b ua va es
      if 2 * (z0.length : ℤ) < count then ticks ua va count else some z0
    else
      match ticks i j (min (pytrunc (j - i)) count) with
      | none => none
      | some ts => ts.mapM (fun t => if t.den = 1 then some ((b : ℚ) ^ t.num) else none)
  match z with
  | none => none
  | some z0 =>
    match (match type with
           | TickT.major => filterOpt (is_major b) z0
           | TickT.minor => filterOpt (fun t => Option.map not (is_major b t)) z0
           | TickT.all => some z0) with
    | none => none
    | some z1 => some (if rev then z1.reverse else z1)

/-!
## Basic facts about `tick_increment`, `mult` and the decoded spacing
-/

theorem mult_pos (e : ℚ) : 0 < mult e := by
  rw [mult]; split_ifs <;> norm_num

theorem mult_one_le (e : ℚ) : 1 ≤ mult e := by
  rw [mult]; split_ifs <;> norm_num

theorem mult_le_ten (e : ℚ) : mult e ≤ 10 := by
  rw [mult]; split_ifs <;> norm_num

theorem mult_mono (a b : ℚ) (ha : 0 ≤ a) (hab : a ≤ b) : mult a ≤ mult b := by
  have hsq : a ^ 2 ≤ b ^ 2 := by nlinarith
  rw [mult, mult]
  split_ifs <;> linarith

theorem mult_cases (e : ℚ) : mult e = 1 ∨ mult e = 2 ∨ mult e = 5 ∨ mult e = 10 := by
  rw [mult]; split_ifs <;> simp

/-- On the domain of definition (`start < stop`, `count > 0`) the source's
`tick_increment` returns, and the value is exactly the snapped shape written
down in the spec. -/
theorem tick_increment_eq_spec (start stop : ℚ) (count : ℤ)
    (h1 : start < stop) (h2 : 0 < count) :
    tick_increment start stop count = some (tick_increment_spec_fn start stop count) := by
  have hc : ¬ count ≤ 0 := by omega
  have hcq : (0 : ℚ) < (count : ℚ) := by exact_mod_cast h2
  have hstep : 0 < (stop - start) / (count : ℚ) := div_pos (by linarith) hcq
  rw [tick_increment, tick_increment_spec_fn, mult]
  simp only [if_neg hc, if_neg (not_le.mpr hstep)]
  split_ifs <;> norm_num

/-- The error `q / 10 ^ qlog 10 q` lies in `[1, 10)`. -/
theorem error_bounds (q : ℚ) (hq : 0 < q) :
    1 ≤ q / (10 : ℚ) ^ qlog 10 q ∧ q / (10 : ℚ) ^ qlog 10 q < 10 := by
  obtain ⟨h1, h2⟩ := qlog_spec 10 q (by norm_num) hq
  push_cast at h1 h2
  have hp : (0 : ℚ) < (10 : ℚ) ^ qlog 10 q := by positivity
  have hsucc : (10 : ℚ) ^ (qlog 10 q + 1) = (10 : ℚ) ^ qlog 10 q * 10 := by
    rw [zpow_add_one₀ (by norm_num : (10 : ℚ) ≠ 0)]
  constructor
  · rw [le_div_iff₀ hp]; linarith
  · rw [div_lt_iff₀ hp]
    rw [hsucc] at h2
    linarith

/-- The ideal positive spacing `mult(error) × 10^power` as a function of the
raw step. -/
def snap (raw : ℚ) : ℚ :=
  mult (raw / (10 : ℚ) ^ qlog 10 raw) * (10 : ℚ) ^ qlog 10 raw

theorem snap_pos (raw : ℚ) : 0 < snap raw := by
  rw [snap]
  have := mult_pos (raw / (10 : ℚ) ^ qlog 10 raw)
  positivity

theorem snap_mono (a b : ℚ) (ha : 0 < a) (hab : a ≤ b) : snap a ≤ snap b := by
  have hb : 0 < b := lt_of_lt_of_le ha hab
  have hpq : qlog 10 a ≤ qlog 10 b := qlog_mono 10 a b (by norm_num) ha hab
  have hpa : (0 : ℚ) < (10 : ℚ) ^ qlog 10 a := by positivity
  have hpb : (0 : ℚ) < (10 : ℚ) ^ qlog 10 b := by positivity
  rcases eq_or_lt_of_le hpq with heq | hlt
  · rw [snap, snap, ← heq]
    have herr : a / (10 : ℚ) ^ qlog 10 a ≤ b / (10 : ℚ) ^ qlog 10 a := by gcongr
    have h0 : 0 ≤ a / (10 : ℚ) ^ qlog 10 a := by positivity
    exact mul_le_mul_of_nonneg_right (mult_mono _ _ h0 herr) hpa.le
  · rw [snap, snap]
    calc mult (a / (10 : ℚ) ^ qlog 10 a) * (10 : ℚ) ^ qlog 10 a
        ≤ 10 * (10 : ℚ) ^ qlog 10 a :=
          mul_le_mul_of_nonneg_right (mult_le_ten _) hpa.le
      _ = (10 : ℚ) ^ (qlog 10 a + 1) := by
          rw [zpow_add_one₀ (by norm_num : (10 : ℚ) ≠ 0)]; ring
      _ ≤ (10 : ℚ) ^ qlog 10 b := by
          apply zpow_le_zpow_right₀ (by norm_num : (1 : ℚ) ≤ 10)
          omega
      _ = 1 * (10 : ℚ) ^ qlog 10 b := by ring
      _ ≤ mult (b / (10 : ℚ) ^ qlog 10 b) * (10 : ℚ) ^ qlog 10 b :=
          mul_le_mul_of_nonneg_right (mult_one_le _) hpb.le

theorem spec_fn_pos_branch (start stop : ℚ) (count : ℤ)
    (hp : 0 ≤ qlog 10 ((stop - start) / (count : ℚ))) :
    tick_increment_spec_fn start stop count = snap ((stop - start) / (count : ℚ)) := by
  rw [tick_increment_spec_fn, snap]
  simp only [if_pos hp]

theorem spec_fn_neg_branch (start stop : ℚ) (count : ℤ)
    (hp : ¬ 0 ≤ qlog 10 ((stop - start) / (count : ℚ))) :
    tick_increment_spec_fn start stop count =
      -((10 : ℚ) ^ (-qlog 10 ((stop - start) / (count : ℚ)))) /
        mult ((stop - start) / (count : ℚ) / (10 : ℚ) ^ qlog 10 ((stop - start) / (count : ℚ))) := by
  rw [tick_increment_spec_fn]
  simp only [if_neg hp]

/-- The decoded spacing of the returned value is `snap` of the raw step. -/
theorem spacing_spec_fn (start stop : ℚ) (count : ℤ) :
    spacing (tick_increment_spec_fn start stop count) =
      snap ((stop - start) / (count : ℚ)) := by
  set raw := (stop - start) / (count : ℚ) with hraw
  set p := qlog 10 raw with hp
  set m := mult (raw / (10 : ℚ) ^ p) with hm
  have hm0 : 0 < m := mult_pos _
  by_cases hsgn : 0 ≤ p
  · rw [spec_fn_pos_branch start stop count (by rw [← hraw, ← hp]; exact hsgn)]
    rw [spacing, if_neg (not_lt.mpr (snap_pos raw).le)]
  · rw [spec_fn_neg_branch start stop count (by rw [← hraw, ← hp]; exact hsgn)]
    have hzp : (0 : ℚ) < (10 : ℚ) ^ (-p) := by positivity
    have hneg : -((10 : ℚ) ^ (-p)) / m < 0 := div_neg_of_neg_of_pos (by linarith) hm0
    rw [spacing, if_pos hneg, snap, ← hp, ← hm]
    rw [zpow_neg]
    field_simp
    ring

theorem spec_fn_ne_zero (start stop : ℚ) (count : ℤ) :
    tick_increment_spec_fn start stop count ≠ 0 := by
  intro h
  have := spacing_spec_fn start stop count
  rw [h] at this
  have hz : spacing 0 = 0 := by rw [spacing]; norm_num
  rw [hz] at this
  exact absurd this.symm (ne_of_gt (snap_pos _))

theorem spec_fn_sign (start stop : ℚ) (count : ℤ) :
    (0 ≤ qlog 10 ((stop - start) / (count : ℚ)) ∧ 0 < tick_increment_spec_fn start stop count) ∨
      (¬ 0 ≤ qlog 10 ((stop - start) / (count : ℚ)) ∧ tick_increment_spec_fn start stop count < 0) := by
  by_cases hsgn : 0 ≤ qlog 10 ((stop - start) / (count : ℚ))
  · left
    refine ⟨hsgn, ?_⟩
    rw [spec_fn_pos_branch start stop count hsgn]
    exact snap_pos _
  · right
    refine ⟨hsgn, ?_⟩
    rw [spec_fn_neg_branch start stop count hsgn]
    have hzp : (0 : ℚ) < (10 : ℚ) ^ (-qlog 10 ((stop - start) / (count : ℚ))) := by positivity
    exact div_neg_of_neg_of_pos (by linarith) (mult_pos _)

/-- `tick_step` on its domain of definition returns exactly the snapped
positive spacing. -/
theorem tick_step_eval (start stop : ℚ) (count : ℤ)
    (h1 : start < stop) (h2 : 0 < count) :
    tick_step start stop count = some (snap ((stop - start) / (count : ℚ))) := by
  have hc : ¬ count ≤ 0 := by omega
  have hcq : (0 : ℚ) < (count : ℚ) := by exact_mod_cast h2
  have habs : |stop - start| = stop - start := abs_of_pos (by linarith)
  have hstep : 0 < (stop - start) / (count : ℚ) := div_pos (by linarith) hcq
  rw [tick_step]
  simp only [if_neg hc, habs, if_neg (not_le.mpr hstep), if_neg (not_lt.mpr h1.le)]
  rw [snap, mult]
  split_ifs <;> norm_num <;> ring

/-!
## Bounds for the generated tick list
-/

theorem mem_tickListMul (r0 r1 : ℤ) (step t : ℚ) (h : t ∈ tickListMul r0 r1 step) :
    ∃ i : ℤ, r0 ≤ i ∧ i ≤ r1 ∧ t = (i : ℚ) * step := by
  rw [tickListMul, List.mem_map] at h
  obtain ⟨n, hn, rfl⟩ := h
  rw [List.mem_range] at hn
  have hn2 : (n : ℤ) < r1 - r0 + 1 := Int.lt_toNat.mp hn
  exact ⟨r0 + n, by omega, by omega, rfl⟩

theorem mem_tickListDiv (r0 r1 : ℤ) (s t : ℚ) (h : t ∈ tickListDiv r0 r1 s) :
    ∃ i : ℤ, r0 ≤ i ∧ i ≤ r1 ∧ t = (i : ℚ) / s := by
  rw [tickListDiv, List.mem_map] at h
  obtain ⟨n, hn, rfl⟩ := h
  rw [List.mem_range] at hn
  have hn2 : (n : ℤ) < r1 - r0 + 1 := Int.lt_toNat.mp hn
  exact ⟨r0 + n, by omega, by omega, rfl⟩

theorem nudge_lo_mul (lo step : ℚ) (hstep : 0 < step) :
    lo ≤ ((if (pyround (lo / step) : ℚ) * step < lo then pyround (lo / step) + 1
           else pyround (lo / step) : ℤ) : ℚ) * step := by
  by_cases hn : (pyround (lo / step) : ℚ) * step < lo
  · rw [if_pos hn]
    have hp := le_pyround (lo / step)
    have h2 : lo / step ≤ (pyround (lo / step) : ℚ) + 1 := by linarith
    have h3 := (div_le_iff₀ hstep).mp h2
    push_cast
    linarith
  · rw [if_neg hn]
    exact not_lt.mp hn

theorem nudge_hi_mul (hi step : ℚ) (hstep : 0 < step) :
    ((if hi < (pyround (hi / step) : ℚ) * step then pyround (hi / step) - 1
      else pyround (hi / step) : ℤ) : ℚ) * step ≤ hi := by
  by_cases hn : hi < (pyround (hi / step) : ℚ) * step
  · rw [if_pos hn]
    have hp := pyround_le (hi / step)
    have h2 : (pyround (hi / step) : ℚ) - 1 ≤ hi / step := by linarith
    have h3 := (le_div_iff₀ hstep).mp h2
    push_cast
    linarith
  · rw [if_neg hn]
    exact not_lt.mp hn

theorem nudge_lo_div (lo s : ℚ) (hs : 0 < s) :
    lo ≤ ((if (pyround (lo * s) : ℚ) / s < lo then pyround (lo * s) + 1
           else pyround (lo * s) : ℤ) : ℚ) / s := by
  by_cases hn : (pyround (lo * s) : ℚ) / s < lo
  · rw [if_pos hn]
    have hp := le_pyround (lo * s)
    rw [le_div_iff₀ hs]
    push_cast
    linarith
  · rw [if_neg hn]
    exact not_lt.mp hn

theorem nudge_hi_div (hi s : ℚ) (hs : 0 < s) :
    ((if hi < (pyround (hi * s) : ℚ) / s then pyround (hi * s) - 1
      else pyround (hi * s) : ℤ) : ℚ) / s ≤ hi := by
  by_cases hn : hi < (pyround (hi * s) : ℚ) / s
  · rw [if_pos hn]
    have hp := pyround_le (hi * s)
    rw [div_le_iff₀ hs]
    push_cast
    linarith
  · rw [if_neg hn]
    exact not_lt.mp hn

theorem ticksBody_bounds (start stop step : ℚ) :
    ∀ t ∈ ticksBody start stop step, start ≤ t ∧ t ≤ stop := by
  rw [ticksBody]
  by_cases h0 : step = 0
  · simp [if_pos h0]
  · rw [if_neg h0]
    by_cases hpos : 0 < step
    · rw [if_pos hpos]
      intro t ht
      obtain ⟨i, hi0, hi1, rfl⟩ := mem_tickListMul _ _ _ _ ht
      have hlo := nudge_lo_mul start step hpos
      have hhi := nudge_hi_mul stop step hpos
      constructor
      · exact le_trans hlo
          (mul_le_mul_of_nonneg_right (by exact_mod_cast hi0) hpos.le)
      · exact le_trans
          (mul_le_mul_of_nonneg_right (by exact_mod_cast hi1) hpos.le) hhi
    · rw [if_neg hpos]
      have hs : 0 < -step := by
        rcases lt_trichotomy step 0 with h | h | h
        · linarith
        · exact absurd h h0
        · exact absurd h hpos
      intro t ht
      obtain ⟨i, hi0, hi1, rfl⟩ := mem_tickListDiv _ _ _ _ ht
      have hlo := nudge_lo_div start (-step) hs
      have hhi := nudge_hi_div stop (-step) hs
      constructor
      · refine le_trans hlo ?_
        gcongr
      · refine le_trans ?_ hhi
        gcongr


/-!
## Non-termination of `nice_domain` (count = 1)

The source initialises `max_iter = 10` and tests `while max_iter > 0` but
never decrements it.  On `domain = [-4, 9]`, `count = 1` the loop keeps
expanding the domain `[-10^k, 10^k] → [-2·10^k, 2·10^k] → [-5·10^k, 5·10^k]
→ [-10^(k+1), 10^(k+1)] → …` forever: each recomputed step differs from the
previous one, so the convergence exit never fires.
-/

theorem ti_cycle_one (k : ℕ) :
    tick_increment (-((10 : ℚ) ^ k)) ((10 : ℚ) ^ k) 1 = some (2 * (10 : ℚ) ^ k) := by
  have hp : (0 : ℚ) < (10 : ℚ) ^ k := by positivity
  have hstep_eq : ((10 : ℚ) ^ k - -((10 : ℚ) ^ k)) / ((1 : ℤ) : ℚ) = 2 * (10 : ℚ) ^ k := by
    push_cast; ring
  have hq : qlog 10 (2 * (10 : ℚ) ^ k) = (k : ℤ) := by
    apply qlog_unique 10 _ _ (by norm_num) (by positivity)
    · push_cast [zpow_natCast]
      linarith
    · have : ((10 : ℕ) : ℚ) ^ ((k : ℤ) + 1) = (10 : ℚ) ^ k * 10 := by
        rw [zpow_add_one₀ (by norm_num : ((10 : ℕ) : ℚ) ≠ 0)]
        push_cast [zpow_natCast]
        ring
      rw [this]
      linarith
  have herr : 2 * (10 : ℚ) ^ k / (10 : ℚ) ^ (k : ℤ) = 2 := by
    rw [zpow_natCast]; field_simp
  have hc : ¬ (1 : ℤ) ≤ 0 := by norm_num
  have hns : ¬ (2 * (10 : ℚ) ^ k ≤ 0) := not_le.mpr (by positivity)
  rw [tick_increment]
  simp only [hstep_eq, if_neg hc, if_neg hns, hq, herr,
    if_pos (Int.natCast_nonneg k)]
  norm_num [zpow_natCast]

theorem ti_cycle_two (k : ℕ) :
    tick_increment (-(2 * (10 : ℚ) ^ k)) (2 * (10 : ℚ) ^ k) 1 =
      some (5 * (10 : ℚ) ^ k) := by
  have hp : (0 : ℚ) < (10 : ℚ) ^ k := by positivity
  have hstep_eq :
      (2 * (10 : ℚ) ^ k - -(2 * (10 : ℚ) ^ k)) / ((1 : ℤ) : ℚ) = 4 * (10 : ℚ) ^ k := by
    push_cast; ring
  have hq : qlog 10 (4 * (10 : ℚ) ^ k) = (k : ℤ) := by
    apply qlog_unique 10 _ _ (by norm_num) (by positivity)
    · push_cast [zpow_natCast]
      linarith
    · have : ((10 : ℕ) : ℚ) ^ ((k : ℤ) + 1) = (10 : ℚ) ^ k * 10 := by
        rw [zpow_add_one₀ (by norm_num : ((10 : ℕ) : ℚ) ≠ 0)]
        push_cast [zpow_natCast]
        ring
      rw [this]
      linarith
  have herr : 4 * (10 : ℚ) ^ k / (10 : ℚ) ^ (k : ℤ) = 4 := by
    rw [zpow_natCast]; field_simp
  have hc : ¬ (1 : ℤ) ≤ 0 := by norm_num
  have hns : ¬ (4 * (10 : ℚ) ^ k ≤ 0) := not_le.mpr (by positivity)
  rw [tick_increment]
  simp only [hstep_eq, if_neg hc, if_neg hns, hq, herr,
    if_pos (Int.natCast_nonneg k)]
  norm_num [zpow_natCast]

theorem ti_cycle_five (k : ℕ) :
    tick_increment (-(5 * (10 : ℚ) ^ k)) (5 * (10 : ℚ) ^ k) 1 =
      some ((10 : ℚ) ^ (k + 1)) := by
  have hp : (0 : ℚ) < (10 : ℚ) ^ k := by positivity
  have hstep_eq :
      (5 * (10 : ℚ) ^ k - -(5 * (10 : ℚ) ^ k)) / ((1 : ℤ) : ℚ) = (10 : ℚ) ^ (k + 1) := by
    push_cast
    rw [pow_succ]
    ring
  have hq : qlog 10 ((10 : ℚ) ^ (k + 1)) = ((k + 1 : ℕ) : ℤ) := by
    apply qlog_unique 10 _ _ (by norm_num) (by positivity)
    · rw [zpow_natCast]
      norm_cast
    · have h2 : ((10 : ℕ) : ℚ) ^ (((k + 1 : ℕ) : ℤ) + 1) =
          ((10 : ℕ) : ℚ) ^ (k + 1) * ((10 : ℕ) : ℚ) := by
        rw [zpow_add_one₀ (by norm_num : ((10 : ℕ) : ℚ) ≠ 0), zpow_natCast]
      rw [h2]
      push_cast
      have h3 : (0 : ℚ) < (10 : ℚ) ^ (k + 1) := by positivity
      linarith
  have herr : (10 : ℚ) ^ (k + 1) / (10 : ℚ) ^ (((k + 1 : ℕ) : ℤ)) = 1 := by
    rw [zpow_natCast]
    field_simp
  have hfin : (10 : ℚ) ^ (((k + 1 : ℕ) : ℤ)) = (10 : ℚ) ^ (k + 1) :=
    zpow_natCast 10 (k + 1)
  have hc : ¬ (1 : ℤ) ≤ 0 := by norm_num
  have hns : ¬ ((10 : ℚ) ^ (k + 1) ≤ 0) := not_le.mpr (by positivity)
  rw [tick_increment]
  simp only [hstep_eq, if_neg hc, if_neg hns, hq, herr, hfin,
    if_pos (Int.natCast_nonneg (k + 1))]
  norm_num

theorem nice_loop_cycle (d0 : ℚ × ℚ) : ∀ fuel k, 1 ≤ k →
    (nice_loop 1 false d0 fuel (-((10 : ℚ) ^ k)) ((10 : ℚ) ^ k)
        (some ((10 : ℚ) ^ k)) = none ∧
      nice_loop 1 false d0 fuel (-(2 * (10 : ℚ) ^ k)) (2 * (10 : ℚ) ^ k)
        (some (2 * (10 : ℚ) ^ k)) = none ∧
      nice_loop 1 false d0 fuel (-(5 * (10 : ℚ) ^ k)) (5 * (10 : ℚ) ^ k)
        (some (5 * (10 : ℚ) ^ k)) = none) := by
  intro fuel
  induction fuel with
  | zero => intro k hk; exact ⟨rfl, rfl, rfl⟩
  | succ fuel ih =>
    intro k hk
    have hp : (0 : ℚ) < (10 : ℚ) ^ k := by positivity
    refine ⟨?_, ?_, ?_⟩
    · rw [nice_loop, ti_cycle_one k]
      have hne : ¬ (some ((10 : ℚ) ^ k) = some (2 * (10 : ℚ) ^ k)) := by
        simp only [Option.some.injEq]
        intro h; linarith
      have hstart : (↑⌊-((10 : ℚ) ^ k) / (2 * (10 : ℚ) ^ k)⌋ : ℚ) * (2 * (10 : ℚ) ^ k) =
          -(2 * (10 : ℚ) ^ k) := by
        have harg : -((10 : ℚ) ^ k) / (2 * (10 : ℚ) ^ k) = -(1/2) := by
          field_simp
          ring
        rw [harg, show (⌊(-(1/2) : ℚ)⌋ : ℤ) = -1 by norm_num]
        push_cast; ring
      have hstop : (↑⌈(10 : ℚ) ^ k / (2 * (10 : ℚ) ^ k)⌉ : ℚ) * (2 * (10 : ℚ) ^ k) =
          2 * (10 : ℚ) ^ k := by
        have harg : (10 : ℚ) ^ k / (2 * (10 : ℚ) ^ k) = 1/2 := by
          field_simp
          ring
        rw [harg, show (⌈(1/2 : ℚ)⌉ : ℤ) = 1 by norm_num [Int.ceil_eq_iff]]
        push_cast; ring
      simp only [if_neg hne, if_pos (by positivity : (0 : ℚ) < 2 * (10 : ℚ) ^ k),
        hstart, hstop]
      exact (ih k hk).2.1
    · rw [nice_loop, ti_cycle_two k]
      have hne : ¬ (some (2 * (10 : ℚ) ^ k) = some (5 * (10 : ℚ) ^ k)) := by
        simp only [Option.some.injEq]
        intro h; linarith
      have hstart : (↑⌊-(2 * (10 : ℚ) ^ k) / (5 * (10 : ℚ) ^ k)⌋ : ℚ) * (5 * (10 : ℚ) ^ k) =
          -(5 * (10 : ℚ) ^ k) := by
        have harg : -(2 * (10 : ℚ) ^ k) / (5 * (10 : ℚ) ^ k) = -(2/5) := by
          field_simp; ring
        rw [harg, show (⌊(-(2/5) : ℚ)⌋ : ℤ) = -1 by norm_num]
        push_cast; ring
      have hstop : (↑⌈2 * (10 : ℚ) ^ k / (5 * (10 : ℚ) ^ k)⌉ : ℚ) * (5 * (10 : ℚ) ^ k) =
          5 * (10 : ℚ) ^ k := by
        have harg : 2 * (10 : ℚ) ^ k / (5 * (10 : ℚ) ^ k) = 2/5 := by
          field_simp; ring
        rw [harg, show (⌈(2/5 : ℚ)⌉ : ℤ) = 1 by norm_num [Int.ceil_eq_iff]]
        push_cast; ring
      simp only [if_neg hne, if_pos (by positivity : (0 : ℚ) < 5 * (10 : ℚ) ^ k),
        hstart, hstop]
      exact (ih k hk).2.2
    · rw [nice_loop, ti_cycle_five k]
      have hp1 : (0 : ℚ) < (10 : ℚ) ^ (k + 1) := by positivity
      have h51 : 5 * (10 : ℚ) ^ k < (10 : ℚ) ^ (k + 1) := by
        rw [pow_succ]; linarith
      have hne : ¬ (some (5 * (10 : ℚ) ^ k) = some ((10 : ℚ) ^ (k + 1))) := by
        simp only [Option.some.injEq]
        intro h; linarith
      have hstart : (↑⌊-(5 * (10 : ℚ) ^ k) / (10 : ℚ) ^ (k + 1)⌋ : ℚ) * (10 : ℚ) ^ (k + 1) =
          -((10 : ℚ) ^ (k + 1)) := by
        have harg : -(5 * (10 : ℚ) ^ k) / (10 : ℚ) ^ (k + 1) = -(1/2) := by
          rw [pow_succ]; field_simp; ring
        rw [harg, show (⌊(-(1/2) : ℚ)⌋ : ℤ) = -1 by norm_num]
        push_cast; ring
      have hstop : (↑⌈5 * (10 : ℚ) ^ k / (10 : ℚ) ^ (k + 1)⌉ : ℚ) * (10 : ℚ) ^ (k + 1) =
          (10 : ℚ) ^ (k + 1) := by
        have harg : 5 * (10 : ℚ) ^ k / (10 : ℚ) ^ (k + 1) = 1/2 := by
          rw [pow_succ]; field_simp; ring
        rw [harg, show (⌈(1/2 : ℚ)⌉ : ℤ) = 1 by norm_num [Int.ceil_eq_iff]]
        push_cast; ring
      simp only [if_neg hne, if_pos hp1, hstart, hstop]
      exact (ih (k + 1) (by omega)).1

theorem ti_entry : tick_increment (-4 : ℚ) 9 1 = some 10 := by
  have hstep_eq : ((9 : ℚ) - (-4)) / ((1 : ℤ) : ℚ) = 13 := by push_cast; ring
  have hq : qlog 10 (13 : ℚ) = 1 := by
    apply qlog_unique 10 _ _ (by norm_num) (by norm_num)
    · norm_num
    · norm_num
  rw [tick_increment]
  simp only [hstep_eq, hq]
  norm_num

/-!
## Concrete evaluations of `qlog` and `tick_increment_spec_fn`
-/

theorem qlog_eval_one : qlog 10 (1 : ℚ) = 0 :=
  qlog_unique 10 1 0 (by norm_num) (by norm_num) (by norm_num) (by norm_num)

theorem qlog_eval_tenth : qlog 10 (1/10 : ℚ) = -1 :=
  qlog_unique 10 (1/10) (-1) (by norm_num) (by norm_num) (by norm_num) (by norm_num)

theorem qlog_eval_half : qlog 10 (1/2 : ℚ) = -1 :=
  qlog_unique 10 (1/2) (-1) (by norm_num) (by norm_num) (by norm_num) (by norm_num)

theorem spec_fn_0_1_1 : tick_increment_spec_fn 0 1 1 = 1 := by
  have hs : ((1 : ℚ) - 0) / ((1 : ℤ) : ℚ) = 1 := by push_cast; norm_num
  rw [tick_increment_spec_fn, mult]
  simp only [hs, qlog_eval_one]
  norm_num

theorem spec_fn_0_1_2 : tick_increment_spec_fn 0 1 2 = -2 := by
  have hs : ((1 : ℚ) - 0) / ((2 : ℤ) : ℚ) = 1/2 := by push_cast; norm_num
  rw [tick_increment_spec_fn, mult]
  simp only [hs, qlog_eval_half]
  norm_num

theorem spec_fn_0_1_10 : tick_increment_spec_fn 0 1 10 = -10 := by
  have hs : ((1 : ℚ) - 0) / ((10 : ℤ) : ℚ) = 1/10 := by push_cast; norm_num
  rw [tick_increment_spec_fn, mult]
  simp only [hs, qlog_eval_tenth]
  norm_num

/-!
## Claims
-/

/-- C1: the spec says `tick_increment` returns 0 or a non-finite value when
`count ≤ 0` or `start == stop`, returning rather than raising, with callers
treating that as "no ticks".  In the code, `(stop - start) / max(0, count)`
raises `ZeroDivisionError` for `count ≤ 0` and `log10(0.0)` raises
`ValueError` for a degenerate domain, so those calls raise (`= none` in the
model); the caller `ticks(0, 1, 0)` propagates the exception instead of
returning `[]`. -/
theorem C1_tick_increment_raises_instead_of_returning :
    tick_increment 0 1 0 = none ∧ tick_increment 5 5 3 = none ∧
      ticks (0 : ℚ) 1 0 = none := by
  have h1 : tick_increment (0 : ℚ) 1 0 = none := by
    rw [tick_increment]
    norm_num
  have h2 : tick_increment (5 : ℚ) 5 3 = none := by
    rw [tick_increment]
    norm_num
  refine ⟨h1, h2, ?_⟩
  rw [ticks, if_neg (by norm_num : ¬ ((0 : ℚ) = 1 ∧ (0 : ℤ) < 0)),
    if_neg (by norm_num : ¬ (1 : ℚ) < 0), ticksAsc, h1]
  rfl

/-- C2: for `start < stop` and `count > 0`, `tick_increment` returns the
snapped value described by the spec: `multiplier × 10^power` for
`power ≥ 0` and the negative reciprocal `-10^(-power) / multiplier` for
`power < 0`, the multiplier chosen from `{1, 2, 5, 10}` by the
`sqrt(50)` / `sqrt(10)` / `sqrt(2)` thresholds on the error
(`tick_increment_spec_fn` is that spec formula verbatim). -/
theorem C2_tick_increment_snapped_shape (start stop : ℚ) (count : ℤ)
    (h1 : start < stop) (h2 : 0 < count) :
    tick_increment start stop count = some (tick_increment_spec_fn start stop count) ∧
      (mult ((stop - start) / (count : ℚ) / (10 : ℚ) ^ qlog 10 ((stop - start) / (count : ℚ))) = 1 ∨
       mult ((stop - start) / (count : ℚ) / (10 : ℚ) ^ qlog 10 ((stop - start) / (count : ℚ))) = 2 ∨
       mult ((stop - start) / (count : ℚ) / (10 : ℚ) ^ qlog 10 ((stop - start) / (count : ℚ))) = 5 ∨
       mult ((stop - start) / (count : ℚ) / (10 : ℚ) ^ qlog 10 ((stop - start) / (count : ℚ))) = 10) :=
  ⟨tick_increment_eq_spec start stop count h1 h2, mult_cases _⟩

/-- Witness for C2 at `start = 0`, `stop = 1`, `count = 10` (where the
returned value is the reciprocal form `-10`). -/
theorem C2_witness :
    (0 : ℚ) < 1 ∧ (0 : ℤ) < 10 ∧
      tick_increment 0 1 10 = some (tick_increment_spec_fn 0 1 10) ∧
      tick_increment_spec_fn 0 1 10 = -10 :=
  ⟨by norm_num, by norm_num,
    (C2_tick_increment_snapped_shape 0 1 10 (by norm_num) (by norm_num)).1,
    spec_fn_0_1_10⟩

/-- C3: for `start < stop` and `count > 0`, every tick produced by `ticks`
lies inside `[start, stop]` (both the positive-step and the reciprocal
negative-step branches, after the boundary-index nudging). -/
theorem C3_ticks_within_domain (start stop : ℚ) (count : ℤ)
    (h1 : start < stop) (h2 : 0 < count) (L : List ℚ)
    (hL : ticks start stop count = some L) :
    ∀ t ∈ L, start ≤ t ∧ t ≤ stop := by
  rw [ticks, if_neg (fun h => absurd h.1 h1.ne),
    if_neg (not_lt.mpr h1.le), ticksAsc,
    tick_increment_eq_spec start stop count h1 h2] at hL
  simp only [Option.map_some', Option.some.injEq] at hL
  subst hL
  exact ticksBody_bounds start stop _

/-- C4: reversing the domain orientation exactly reverses the tick
sequence (and when the Python code raises, it raises for both
orientations). -/
theorem C4_ticks_reverse (a b : ℚ) (c : ℤ) :
    ticks b a c = Option.map List.reverse (ticks a b c) := by
  rcases lt_trichotomy a b with h | h | h
  · have hne : ¬ (b = a ∧ 0 < c) := fun hx => absurd hx.1 h.ne'
    have hne2 : ¬ (a = b ∧ 0 < c) := fun hx => absurd hx.1 h.ne
    rw [ticks, ticks, if_neg hne, if_neg hne2, if_pos h,
      if_neg (not_lt.mpr h.le)]
  · subst h
    by_cases hc : 0 < c
    · rw [ticks, if_pos ⟨rfl, hc⟩]
      simp
    · have hti : tick_increment a a c = none := by
        rw [tick_increment, if_pos (by omega : c ≤ 0)]
      rw [ticks, if_neg (fun hx => absurd hx.2 hc), if_neg (lt_irrefl a),
        ticksAsc, hti]
      rfl
  · have hne : ¬ (b = a ∧ 0 < c) := fun hx => absurd hx.1 h.ne
    have hne2 : ¬ (a = b ∧ 0 < c) := fun hx => absurd hx.1 h.ne'
    rw [ticks, ticks, if_neg hne, if_neg hne2, if_pos h,
      if_neg (not_lt.mpr h.le)]
    cases ticksAsc b a c <;> simp

/-- C6 fails as stated: for the fixed domain `[0, 1]`, raising the count
from 1 to 2 raises the magnitude of the returned value from `|1| = 1` to
`|-2| = 2` (the reciprocal encoding flips the magnitude for sub-unit
steps). -/
theorem C6_counterexample :
    tick_increment 0 1 1 = some 1 ∧ tick_increment 0 1 2 = some (-2) ∧
      ¬ (|(-2 : ℚ)| ≤ |(1 : ℚ)|) := by
  refine ⟨?_, ?_, by norm_num⟩
  · rw [tick_increment_eq_spec 0 1 1 (by norm_num) (by norm_num), spec_fn_0_1_1]
  · rw [tick_increment_eq_spec 0 1 2 (by norm_num) (by norm_num), spec_fn_0_1_2]

/-- C6 amended: increasing the count never increases the *decoded spacing*
of the returned step (the positive value it denotes: `r` itself when
`r > 0`, `1/(-r)` for the reciprocal encoding `r < 0`). -/
theorem C6_amended_spacing_antitone (start stop : ℚ) (c1 c2 : ℤ)
    (h1 : start < stop) (hc1 : 0 < c1) (hc12 : c1 ≤ c2) :
    ∃ r1 r2, tick_increment start stop c1 = some r1 ∧
      tick_increment start stop c2 = some r2 ∧ spacing r2 ≤ spacing r1 := by
  have hc2 : 0 < c2 := lt_of_lt_of_le hc1 hc12
  refine ⟨_, _, tick_increment_eq_spec start stop c1 h1 hc1,
    tick_increment_eq_spec start stop c2 h1 hc2, ?_⟩
  rw [spacing_spec_fn, spacing_spec_fn]
  have hc2q : (0 : ℚ) < (c2 : ℚ) := by exact_mod_cast hc2
  have hc1q : (0 : ℚ) < (c1 : ℚ) := by exact_mod_cast hc1
  have hcc : ((c1 : ℤ) : ℚ) ≤ ((c2 : ℤ) : ℚ) := by exact_mod_cast hc12
  apply snap_mono
  · exact div_pos (by linarith) hc2q
  · gcongr
    linarith

/-- Witness for the amended C6 at `[0, 1]`, counts 1 and 2. -/
theorem C6_amended_witness :
    (0 : ℚ) < 1 ∧ (0 : ℤ) < 1 ∧ (1 : ℤ) ≤ 2 ∧
      ∃ r1 r2, tick_increment 0 1 1 = some r1 ∧
        tick_increment 0 1 2 = some r2 ∧ spacing r2 ≤ spacing r1 :=
  ⟨by norm_num, by norm_num, by norm_num,
    C6_amended_spacing_antitone 0 1 1 2 (by norm_num) (by norm_num) (by norm_num)⟩

/-- C9: on the common domain of definition, `tick_step` is the
always-positive encoding of `tick_increment`: it returns `r` itself when
`tick_increment` returns `r > 0`, and `1/(-r)` when `tick_increment`
returns the reciprocal form `r < 0`. -/
theorem C9_tick_step_refines_tick_increment (start stop : ℚ) (count : ℤ)
    (h1 : start < stop) (h2 : 0 < count) :
    ∃ r s, tick_increment start stop count = some r ∧
      tick_step start stop count = some s ∧
      (0 < r → s = r) ∧ (r < 0 → s = 1 / (-r)) := by
  refine ⟨tick_increment_spec_fn start stop count,
    snap ((stop - start) / (count : ℚ)),
    tick_increment_eq_spec start stop count h1 h2,
    tick_step_eval start stop count h1 h2, ?_, ?_⟩
  · intro hr
    have hsp := spacing_spec_fn start stop count
    rw [spacing, if_neg (not_lt.mpr hr.le)] at hsp
    exact hsp.symm
  · intro hr
    have hsp := spacing_spec_fn start stop count
    rw [spacing, if_pos hr] at hsp
    rw [one_div, inv_neg]
    exact hsp.symm

/-- Witness for C9 at `start = 0`, `stop = 1`, `count = 10`. -/
theorem C9_witness :
    (0 : ℚ) < 1 ∧ (0 : ℤ) < 10 ∧
      ∃ r s, tick_increment 0 1 10 = some r ∧ tick_step 0 1 10 = some s ∧
        (0 < r → s = r) ∧ (r < 0 → s = 1 / (-r)) :=
  ⟨by norm_num, by norm_num,
    C9_tick_step_refines_tick_increment 0 1 10 (by norm_num) (by norm_num)⟩

/-- C5 fails on the code: `max_iter = 10` is never decremented, so the
`while max_iter > 0` loop never takes its cap exit.  On
`nice_domain([-4, 9], count=1)` the domain keeps expanding
(`[-10, 10] → [-20, 20] → [-50, 50] → [-100, 100] → …`) and the loop never
returns, whatever the iteration budget: in exact arithmetic an infinite
loop, in the float source an eventual `OverflowError` from
`floor(log10(inf))`. -/
theorem C5_nice_domain_diverges (fuel : ℕ) :
    nice_domain (-4 : ℚ) 9 1 fuel = none := by
  rw [nice_domain, if_neg (by norm_num : ¬ (9 : ℚ) < -4)]
  cases fuel with
  | zero => rfl
  | succ f =>
    rw [nice_loop, ti_entry]
    have hne : ¬ ((none : Option ℚ) = some 10) := by simp
    have hstart : (↑⌊(-4 : ℚ) / 10⌋ : ℚ) * 10 = -((10 : ℚ) ^ 1) := by
      norm_num
    have hstop : (↑⌈(9 : ℚ) / 10⌉ : ℚ) * 10 = (10 : ℚ) ^ 1 := by
      norm_num [Int.ceil_eq_iff]
    have hprev : (some (10 : ℚ)) = some ((10 : ℚ) ^ 1) := by norm_num
    simp only [if_neg hne, if_pos (by norm_num : (0 : ℚ) < 10), hstart, hstop,
      hprev]
    exact (nice_loop_cycle (-4, 9) f 1 le_rfl).1

/-- C8 fails as stated: the color scale does not clamp.  With domain
`[0, 1]`, no range, the out-of-domain input `2` is fed into the palette
lookup as the unclamped position `2 ∉ [0, 1]` (clamping happens only inside
the external `matplotlib` colormap). -/
theorem C8_counterexample :
    scale_color_position ⟨(0, 1), none⟩ 2 = some 2 ∧ ¬ ((2 : ℚ) ≤ 1) := by
  constructor
  · rw [scale_color_position, ScaleLinear.call]
    norm_num
  · norm_num

/-- C8 amended: for a color scale without an explicit output range, the
position fed into the palette lookup is `(v - lo) / (hi - lo)`, and it lies
in the interval `[0, 1]` for every input `v` *inside* the domain; clamping
of out-of-domain inputs is left to the external palette lookup. -/
theorem C8_amended_in_domain_position (lo hi v : ℚ) (h1 : lo < hi)
    (h2 : lo ≤ v) (h3 : v ≤ hi) :
    scale_color_position ⟨(lo, hi), none⟩ v = some ((v - lo) / (hi - lo)) ∧
      0 ≤ (v - lo) / (hi - lo) ∧ (v - lo) / (hi - lo) ≤ 1 := by
  have hd : hi - lo ≠ 0 := sub_ne_zero_of_ne h1.ne'
  refine ⟨?_, ?_, ?_⟩
  · rw [scale_color_position, ScaleLinear.call]
    simp only [if_neg hd]
  · exact div_nonneg (by linarith) (by linarith)
  · rw [div_le_one (by linarith)]
    linarith

/-- Witness for the amended C8 at domain `[0, 1]`, value `1/2`. -/
theorem C8_amended_witness :
    ((0 : ℚ) < 1 ∧ (0 : ℚ) ≤ 1/2 ∧ (1/2 : ℚ) ≤ 1) ∧
      scale_color_position ⟨(0, 1), none⟩ (1/2) = some ((1/2 - 0) / (1 - 0)) ∧
      0 ≤ ((1/2 : ℚ) - 0) / (1 - 0) ∧ ((1/2 : ℚ) - 0) / (1 - 0) ≤ 1 :=
  ⟨⟨by norm_num, by norm_num, by norm_num⟩,
    C8_amended_in_domain_position 0 1 (1/2) (by norm_num) (by norm_num) (by norm_num)⟩

/-- C10: `ScaleLinear.__call__` divides by `max - min`, so it is defined
exactly when the domain is non-degenerate (`none` = `ZeroDivisionError` iff
`max = min`), while a degenerate domain remains a legal state for `ticks`
(which returns the single point for positive count) and for construction. -/
theorem C10_linear_call_defined_iff (dom : ℚ × ℚ) (rng : Option (ℚ × ℚ)) (v : ℚ) :
    (ScaleLinear.call ⟨dom, rng⟩ v = none ↔ dom.2 = dom.1) ∧
      (∀ count : ℤ, 0 < count → ticks dom.1 dom.1 count = some [dom.1]) := by
  constructor
  · constructor
    · intro hnone
      by_contra hne
      have hd : dom.2 - dom.1 ≠ 0 := fun h => hne (sub_eq_zero.mp h)
      rw [ScaleLinear.call, if_neg hd] at hnone
      exact Option.noConfusion hnone
    · intro heq
      rw [ScaleLinear.call, if_pos (sub_eq_zero.mpr heq)]
  · intro count hc
    rw [ticks, if_pos ⟨rfl, hc⟩]

/-- Witness for C10: degenerate domain `[0, 0]` makes the map raise while
`ticks` still returns the single point. -/
theorem C10_witness :
    (ScaleLinear.call ⟨(0, 0), none⟩ 7 = none ↔ (0 : ℚ) = 0) ∧
      ticks (0 : ℚ) 0 3 = some [0] := by
  have h := C10_linear_call_defined_iff (0, 0) none 7
  exact ⟨h.1, h.2 3 (by norm_num)⟩

/-!
## Evaluation of the log-scale tick machinery on the domain `[1, 1000]`
-/

theorem ltp_eval : logTicksPos 10 1 1000 [0, 1, 2, 3] =
    [1,2,3,4,5,6,7,8,9,10,20,30,40,50,60,70,80,90,
     100,200,300,400,500,600,700,800,900,1000] := by
  rw [logTicksPos]
  norm_num [scanK, List.range']
theorem is_major_eval_1 : is_major 10 (1 : ℚ) = some true := by
  have hq : qlog 10 ((1 : ℚ) ^ 2) = 0 :=
    qlog_unique 10 _ 0 (by norm_num) (by norm_num) (by norm_num) (by norm_num)
  have hr : round_log 10 (1 : ℚ) = 0 := by
    rw [round_log, hq]
    decide
  rw [is_major, if_neg (by norm_num : ¬ (1 : ℚ) ≤ 0), hr]
  simp only [Option.some.injEq]
  rw [decide_eq_true_eq]
  norm_num

theorem is_major_eval_2 : is_major 10 (2 : ℚ) = some false := by
  have hq : qlog 10 ((2 : ℚ) ^ 2) = 0 :=
    qlog_unique 10 _ 0 (by norm_num) (by norm_num) (by norm_num) (by norm_num)
  have hr : round_log 10 (2 : ℚ) = 0 := by
    rw [round_log, hq]
    decide
  rw [is_major, if_neg (by norm_num : ¬ (2 : ℚ) ≤ 0), hr]
  simp only [Option.some.injEq]
  rw [decide_eq_false_iff_not]
  norm_num

theorem is_major_eval_3 : is_major 10 (3 : ℚ) = some false := by
  have hq : qlog 10 ((3 : ℚ) ^ 2) = 0 :=
    qlog_unique 10 _ 0 (by norm_num) (by norm_num) (by norm_num) (by norm_num)
  have hr : round_log 10 (3 : ℚ) = 0 := by
    rw [round_log, hq]
    decide
  rw [is_major, if_neg (by norm_num : ¬ (3 : ℚ) ≤ 0), hr]
  simp only [Option.some.injEq]
  rw [decide_eq_false_iff_not]
  norm_num

theorem is_major_eval_4 : is_major 10 (4 : ℚ) = some false := by
  have hq : qlog 10 ((4 : ℚ) ^ 2) = 1 :=
    qlog_unique 10 _ 1 (by norm_num) (by norm_num) (by norm_num) (by norm_num)
  have hr : round_log 10 (4 : ℚ) = 1 := by
    rw [round_log, hq]
    decide
  rw [is_major, if_neg (by norm_num : ¬ (4 : ℚ) ≤ 0), hr]
  simp only [Option.some.injEq]
  rw [decide_eq_false_iff_not]
  norm_num

theorem is_major_eval_5 : is_major 10 (5 : ℚ) = some false := by
  have hq : qlog 10 ((5 : ℚ) ^ 2) = 1 :=
    qlog_unique 10 _ 1 (by norm_num) (by norm_num) (by norm_num) (by norm_num)
  have hr : round_log 10 (5 : ℚ) = 1 := by
    rw [round_log, hq]
    decide
  rw [is_major, if_neg (by norm_num : ¬ (5 : ℚ) ≤ 0), hr]
  simp only [Option.some.injEq]
  rw [decide_eq_false_iff_not]
  norm_num

theorem is_major_eval_6 : is_major 10 (6 : ℚ) = some false := by
  have hq : qlog 10 ((6 : ℚ) ^ 2) = 1 :=
    qlog_unique 10 _ 1 (by norm_num) (by norm_num) (by norm_num) (by norm_num)
  have hr : round_log 10 (6 : ℚ) = 1 := by
    rw [round_log, hq]
    decide
  rw [is_major, if_neg (by norm_num : ¬ (6 : ℚ) ≤ 0), hr]
  simp only [Option.some.injEq]
  rw [decide_eq_false_iff_not]
  norm_num

theorem is_major_eval_7 : is_major 10 (7 : ℚ) = some false := by
  have hq : qlog 10 ((7 : ℚ) ^ 2) = 1 :=
    qlog_unique 10 _ 1 (by norm_num) (by norm_num) (by norm_num) (by norm_num)
  have hr : round_log 10 (7 : ℚ) = 1 := by
    rw [round_log, hq]
    decide
  rw [is_major, if_neg (by norm_num : ¬ (7 : ℚ) ≤ 0), hr]
  simp only [Option.some.injEq]
  rw [decide_eq_false_iff_not]
  norm_num

theorem is_major_eval_8 : is_major 10 (8 : ℚ) = some false := by
  have hq : qlog 10 ((8 : ℚ) ^ 2) = 1 :=
    qlog_unique 10 _ 1 (by norm_num) (by norm_num) (by norm_num) (by norm_num)
  have hr : round_log 10 (8 : ℚ) = 1 := by
    rw [round_log, hq]
    decide
  rw [is_major, if_neg (by norm_num : ¬ (8 : ℚ) ≤ 0), hr]
  simp only [Option.some.injEq]
  rw [decide_eq_false_iff_not]
  norm_num

theorem is_major_eval_9 : is_major 10 (9 : ℚ) = some false := by
  have hq : qlog 10 ((9 : ℚ) ^ 2) = 1 :=
    qlog_unique 10 _ 1 (by norm_num) (by norm_num) (by norm_num) (by norm_num)
  have hr : round_log 10 (9 : ℚ) = 1 := by
    rw [round_log, hq]
    decide
  rw [is_major, if_neg (by norm_num : ¬ (9 : ℚ) ≤ 0), hr]
  simp only [Option.some.injEq]
  rw [decide_eq_false_iff_not]
  norm_num

theorem is_major_eval_10 : is_major 10 (10 : ℚ) = some true := by
  have hq : qlog 10 ((10 : ℚ) ^ 2) = 2 :=
    qlog_unique 10 _ 2 (by norm_num) (by norm_num) (by norm_num) (by norm_num)
  have hr : round_log 10 (10 : ℚ) = 1 := by
    rw [round_log, hq]
    decide
  rw [is_major, if_neg (by norm_num : ¬ (10 : ℚ) ≤ 0), hr]
  simp only [Option.some.injEq]
  rw [decide_eq_true_eq]
  norm_num

theorem is_major_eval_20 : is_major 10 (20 : ℚ) = some false := by
  have hq : qlog 10 ((20 : ℚ) ^ 2) = 2 :=
    qlog_unique 10 _ 2 (by norm_num) (by norm_num) (by norm_num) (by norm_num)
  have hr : round_log 10 (20 : ℚ) = 1 := by
    rw [round_log, hq]
    decide
  rw [is_major, if_neg (by norm_num : ¬ (20 : ℚ) ≤ 0), hr]
  simp only [Option.some.injEq]
  rw [decide_eq_false_iff_not]
  norm_num

theorem is_major_eval_30 : is_major 10 (30 : ℚ) = some false := by
  have hq : qlog 10 ((30 : ℚ) ^ 2) = 2 :=
    qlog_unique 10 _ 2 (by norm_num) (by norm_num) (by norm_num) (by norm_num)
  have hr : round_log 10 (30 : ℚ) = 1 := by
    rw [round_log, hq]
    decide
  rw [is_major, if_neg (by norm_num : ¬ (30 : ℚ) ≤ 0), hr]
  simp only [Option.some.injEq]
  rw [decide_eq_false_iff_not]
  norm_num

theorem is_major_eval_40 : is_major 10 (40 : ℚ) = some false := by
  have hq : qlog 10 ((40 : ℚ) ^ 2) = 3 :=
    qlog_unique 10 _ 3 (by norm_num) (by norm_num) (by norm_num) (by norm_num)
  have hr : round_log 10 (40 : ℚ) = 2 := by
    rw [round_log, hq]
    decide
  rw [is_major, if_neg (by norm_num : ¬ (40 : ℚ) ≤ 0), hr]
  simp only [Option.some.injEq]
  rw [decide_eq_false_iff_not]
  norm_num

theorem is_major_eval_50 : is_major 10 (50 : ℚ) = some false := by
  have hq : qlog 10 ((50 : ℚ) ^ 2) = 3 :=
    qlog_unique 10 _ 3 (by norm_num) (by norm_num) (by norm_num) (by norm_num)
  have hr : round_log 10 (50 : ℚ) = 2 := by
    rw [round_log, hq]
    decide
  rw [is_major, if_neg (by norm_num : ¬ (50 : ℚ) ≤ 0), hr]
  simp only [Option.some.injEq]
  rw [decide_eq_false_iff_not]
  norm_num

theorem is_major_eval_60 : is_major 10 (60 : ℚ) = some false := by
  have hq : qlog 10 ((60 : ℚ) ^ 2) = 3 :=
    qlog_unique 10 _ 3 (by norm_num) (by norm_num) (by norm_num) (by norm_num)
  have hr : round_log 10 (60 : ℚ) = 2 := by
    rw [round_log, hq]
    decide
  rw [is_major, if_neg (by norm_num : ¬ (60 : ℚ) ≤ 0), hr]
  simp only [Option.some.injEq]
  rw [decide_eq_false_iff_not]
  norm_num

theorem is_major_eval_70 : is_major 10 (70 : ℚ) = some false := by
  have hq : qlog 10 ((70 : ℚ) ^ 2) = 3 :=
    qlog_unique 10 _ 3 (by norm_num) (by norm_num) (by norm_num) (by norm_num)
  have hr : round_log 10 (70 : ℚ) = 2 := by
    rw [round_log, hq]
    decide
  rw [is_major, if_neg (by norm_num : ¬ (70 : ℚ) ≤ 0), hr]
  simp only [Option.some.injEq]
  rw [decide_eq_false_iff_not]
  norm_num

theorem is_major_eval_80 : is_major 10 (80 : ℚ) = some false := by
  have hq : qlog 10 ((80 : ℚ) ^ 2) = 3 :=
    qlog_unique 10 _ 3 (by norm_num) (by norm_num) (by norm_num) (by norm_num)
  have hr : round_log 10 (80 : ℚ) = 2 := by
    rw [round_log, hq]
    decide
  rw [is_major, if_neg (by norm_num : ¬ (80 : ℚ) ≤ 0), hr]
  simp only [Option.some.injEq]
  rw [decide_eq_false_iff_not]
  norm_num

theorem is_major_eval_90 : is_major 10 (90 : ℚ) = some false := by
  have hq : qlog 10 ((90 : ℚ) ^ 2) = 3 :=
    qlog_unique 10 _ 3 (by norm_num) (by norm_num) (by norm_num) (by norm_num)
  have hr : round_log 10 (90 : ℚ) = 2 := by
    rw [round_log, hq]
    decide
  rw [is_major, if_neg (by norm_num : ¬ (90 : ℚ) ≤ 0), hr]
  simp only [Option.some.injEq]
  rw [decide_eq_false_iff_not]
  norm_num

theorem is_major_eval_100 : is_major 10 (100 : ℚ) = some true := by
  have hq : qlog 10 ((100 : ℚ) ^ 2) = 4 :=
    qlog_unique 10 _ 4 (by norm_num) (by norm_num) (by norm_num) (by norm_num)
  have hr : round_log 10 (100 : ℚ) = 2 := by
    rw [round_log, hq]
    decide
  rw [is_major, if_neg (by norm_num : ¬ (100 : ℚ) ≤ 0), hr]
  simp only [Option.some.injEq]
  rw [decide_eq_true_eq]
  norm_num

theorem is_major_eval_200 : is_major 10 (200 : ℚ) = some false := by
  have hq : qlog 10 ((200 : ℚ) ^ 2) = 4 :=
    qlog_unique 10 _ 4 (by norm_num) (by norm_num) (by norm_num) (by norm_num)
  have hr : round_log 10 (200 : ℚ) = 2 := by
    rw [round_log, hq]
    decide
  rw [is_major, if_neg (by norm_num : ¬ (200 : ℚ) ≤ 0), hr]
  simp only [Option.some.injEq]
  rw [decide_eq_false_iff_not]
  norm_num

theorem is_major_eval_300 : is_major 10 (300 : ℚ) = some false := by
  have hq : qlog 10 ((300 : ℚ) ^ 2) = 4 :=
    qlog_unique 10 _ 4 (by norm_num) (by norm_num) (by norm_num) (by norm_num)
  have hr : round_log 10 (300 : ℚ) = 2 := by
    rw [round_log, hq]
    decide
  rw [is_major, if_neg (by norm_num : ¬ (300 : ℚ) ≤ 0), hr]
  simp only [Option.some.injEq]
  rw [decide_eq_false_iff_not]
  norm_num

theorem is_major_eval_400 : is_major 10 (400 : ℚ) = some false := by
  have hq : qlog 10 ((400 : ℚ) ^ 2) = 5 :=
    qlog_unique 10 _ 5 (by norm_num) (by norm_num) (by norm_num) (by norm_num)
  have hr : round_log 10 (400 : ℚ) = 3 := by
    rw [round_log, hq]
    decide
  rw [is_major, if_neg (by norm_num : ¬ (400 : ℚ) ≤ 0), hr]
  simp only [Option.some.injEq]
  rw [decide_eq_false_iff_not]
  norm_num

theorem is_major_eval_500 : is_major 10 (500 : ℚ) = some false := by
  have hq : qlog 10 ((500 : ℚ) ^ 2) = 5 :=
    qlog_unique 10 _ 5 (by norm_num) (by norm_num) (by norm_num) (by norm_num)
  have hr : round_log 10 (500 : ℚ) = 3 := by
    rw [round_log, hq]
    decide
  rw [is_major, if_neg (by norm_num : ¬ (500 : ℚ) ≤ 0), hr]
  simp only [Option.some.injEq]
  rw [decide_eq_false_iff_not]
  norm_num

theorem is_major_eval_600 : is_major 10 (600 : ℚ) = some false := by
  have hq : qlog 10 ((600 : ℚ) ^ 2) = 5 :=
    qlog_unique 10 _ 5 (by norm_num) (by norm_num) (by norm_num) (by norm_num)
  have hr : round_log 10 (600 : ℚ) = 3 := by
    rw [round_log, hq]
    decide
  rw [is_major, if_neg (by norm_num : ¬ (600 : ℚ) ≤ 0), hr]
  simp only [Option.some.injEq]
  rw [decide_eq_false_iff_not]
  norm_num

theorem is_major_eval_700 : is_major 10 (700 : ℚ) = some false := by
  have hq : qlog 10 ((700 : ℚ) ^ 2) = 5 :=
    qlog_unique 10 _ 5 (by norm_num) (by norm_num) (by norm_num) (by norm_num)
  have hr : round_log 10 (700 : ℚ) = 3 := by
    rw [round_log, hq]
    decide
  rw [is_major, if_neg (by norm_num : ¬ (700 : ℚ) ≤ 0), hr]
  simp only [Option.some.injEq]
  rw [decide_eq_false_iff_not]
  norm_num

theorem is_major_eval_800 : is_major 10 (800 : ℚ) = some false := by
  have hq : qlog 10 ((800 : ℚ) ^ 2) = 5 :=
    qlog_unique 10 _ 5 (by norm_num) (by norm_num) (by norm_num) (by norm_num)
  have hr : round_log 10 (800 : ℚ) = 3 := by
    rw [round_log, hq]
    decide
  rw [is_major, if_neg (by norm_num : ¬ (800 : ℚ) ≤ 0), hr]
  simp only [Option.some.injEq]
  rw [decide_eq_false_iff_not]
  norm_num

theorem is_major_eval_900 : is_major 10 (900 : ℚ) = some false := by
  have hq : qlog 10 ((900 : ℚ) ^ 2) = 5 :=
    qlog_unique 10 _ 5 (by norm_num) (by norm_num) (by norm_num) (by norm_num)
  have hr : round_log 10 (900 : ℚ) = 3 := by
    rw [round_log, hq]
    decide
  rw [is_major, if_neg (by norm_num : ¬ (900 : ℚ) ≤ 0), hr]
  simp only [Option.some.injEq]
  rw [decide_eq_false_iff_not]
  norm_num

theorem is_major_eval_1000 : is_major 10 (1000 : ℚ) = some true := by
  have hq : qlog 10 ((1000 : ℚ) ^ 2) = 6 :=
    qlog_unique 10 _ 6 (by norm_num) (by norm_num) (by norm_num) (by norm_num)
  have hr : round_log 10 (1000 : ℚ) = 3 := by
    rw [round_log, hq]
    decide
  rw [is_major, if_neg (by norm_num : ¬ (1000 : ℚ) ≤ 0), hr]
  simp only [Option.some.injEq]
  rw [decide_eq_true_eq]
  norm_num


set_option maxHeartbeats 4000000 in
/-- C7: for the log scale over `[1, 1000]` with base 10 and default count 10
(where the constructor's `snap_to_int(log10 1) = 0` and
`snap_to_int(log10 1000) = 3` — exact in real arithmetic), `ticks` with type
major returns exactly `[1, 10, 100, 1000]`, type minor excludes all four and
returns the intermediate mantissa values `2, 3, …, 900`, and a tick is
classified major iff its mantissa relative to the nearest power of the base
is within `1e-3` of 1. -/
theorem C7_log_ticks_major_minor :
    scale_log_ticks 10 1 1000 0 3 10 TickT.major = some [1, 10, 100, 1000] ∧
    scale_log_ticks 10 1 1000 0 3 10 TickT.minor =
      some [2,3,4,5,6,7,8,9,20,30,40,50,60,70,80,90,200,300,400,500,600,700,800,900] ∧
    ∀ t ∈ ([1,2,3,4,5,6,7,8,9,10,20,30,40,50,60,70,80,90,
            100,200,300,400,500,600,700,800,900,1000] : List ℚ),
      (is_major 10 t = some true ↔ t ∈ ([1, 10, 100, 1000] : List ℚ)) := by
  have hes : (List.range (Int.toNat 4)).map (fun n : ℕ => (0 : ℤ) + (n : ℤ)) = [0, 1, 2, 3] := by
    decide
  have hmaj : filterOpt (is_major 10)
      [1,2,3,4,5,6,7,8,9,10,20,30,40,50,60,70,80,90,
       100,200,300,400,500,600,700,800,900,1000] = some [1,10,100,1000] := by
    simp only [filterOpt, is_major_eval_1, is_major_eval_2, is_major_eval_3,
      is_major_eval_4, is_major_eval_5, is_major_eval_6, is_major_eval_7,
      is_major_eval_8, is_major_eval_9, is_major_eval_10, is_major_eval_20,
      is_major_eval_30, is_major_eval_40, is_major_eval_50, is_major_eval_60,
      is_major_eval_70, is_major_eval_80, is_major_eval_90, is_major_eval_100,
      is_major_eval_200, is_major_eval_300, is_major_eval_400, is_major_eval_500,
      is_major_eval_600, is_major_eval_700, is_major_eval_800, is_major_eval_900,
      is_major_eval_1000]
  have hmin : filterOpt (fun t => Option.map not (is_major 10 t))
      [1,2,3,4,5,6,7,8,9,10,20,30,40,50,60,70,80,90,
       100,200,300,400,500,600,700,800,900,1000] =
      some [2,3,4,5,6,7,8,9,20,30,40,50,60,70,80,90,200,300,400,500,600,700,800,900] := by
    simp only [filterOpt, is_major_eval_1, is_major_eval_2, is_major_eval_3,
      is_major_eval_4, is_major_eval_5, is_major_eval_6, is_major_eval_7,
      is_major_eval_8, is_major_eval_9, is_major_eval_10, is_major_eval_20,
      is_major_eval_30, is_major_eval_40, is_major_eval_50, is_major_eval_60,
      is_major_eval_70, is_major_eval_80, is_major_eval_90, is_major_eval_100,
      is_major_eval_200, is_major_eval_300, is_major_eval_400, is_major_eval_500,
      is_major_eval_600, is_major_eval_700, is_major_eval_800, is_major_eval_900,
      is_major_eval_1000, Option.map_some', Bool.not_true, Bool.not_false]
  have hlen : ([1,2,3,4,5,6,7,8,9,10,20,30,40,50,60,70,80,90,
       100,200,300,400,500,600,700,800,900,1000] : List ℚ).length = 28 := rfl
  refine ⟨?_, ?_, ?_⟩
  · rw [scale_log_ticks]
    simp only [if_neg (show ¬ ((1000:ℚ) < 1) by norm_num)]
    simp only [if_pos (show (3:ℚ) - 0 < ((10:ℤ):ℚ) by norm_num)]
    simp only [show ⌊(0:ℚ)⌋ = 0 by norm_num, show ⌈(3:ℚ)⌉ = 3 by norm_num]
    simp only [if_pos (show (0:ℚ) < 1 by norm_num)]
    norm_num only []
    rw [hes, ltp_eval, hlen]
    rw [if_neg (show ¬ ((2:ℤ) * (28:ℕ) < 10) by norm_num)]
    simp only [hmaj]
  · rw [scale_log_ticks]
    simp only [if_neg (show ¬ ((1000:ℚ) < 1) by norm_num)]
    simp only [if_pos (show (3:ℚ) - 0 < ((10:ℤ):ℚ) by norm_num)]
    simp only [show ⌊(0:ℚ)⌋ = 0 by norm_num, show ⌈(3:ℚ)⌉ = 3 by norm_num]
    simp only [if_pos (show (0:ℚ) < 1 by norm_num)]
    norm_num only []
    rw [hes, ltp_eval, hlen]
    rw [if_neg (show ¬ ((2:ℤ) * (28:ℕ) < 10) by norm_num)]
    simp only [hmin]
  · intro t ht
    fin_cases ht <;>
      norm_num [is_major_eval_1, is_major_eval_2, is_major_eval_3,
        is_major_eval_4, is_major_eval_5, is_major_eval_6, is_major_eval_7,
        is_major_eval_8, is_major_eval_9, is_major_eval_10, is_major_eval_20,
        is_major_eval_30, is_major_eval_40, is_major_eval_50, is_major_eval_60,
        is_major_eval_70, is_major_eval_80, is_major_eval_90, is_major_eval_100,
        is_major_eval_200, is_major_eval_300, is_major_eval_400, is_major_eval_500,
        is_major_eval_600, is_major_eval_700, is_major_eval_800, is_major_eval_900,
        is_major_eval_1000, List.mem_cons]

theorem ticks_0_1_1 : ticks (0 : ℚ) 1 1 = some [0, 1] := by
  rw [ticks, if_neg (by norm_num : ¬ ((0 : ℚ) = 1 ∧ (0 : ℤ) < 1)),
    if_neg (by norm_num : ¬ (1 : ℚ) < 0), ticksAsc,
    tick_increment_eq_spec 0 1 1 (by norm_num) (by norm_num), spec_fn_0_1_1]
  simp only [Option.map_some', Option.some.injEq]
  rw [ticksBody, if_neg (by norm_num : ¬ (1 : ℚ) = 0),
    if_pos (by norm_num : (0 : ℚ) < 1)]
  have hp0 : pyround ((0 : ℚ) / 1) = 0 := by
    rw [pyround]
    norm_num
  have hp1 : pyround ((1 : ℚ) / 1) = 1 := by
    rw [pyround]
    norm_num
  rw [hp0, hp1]
  rw [if_neg (by norm_num : ¬ ((0 : ℤ) : ℚ) * 1 < 0),
    if_neg (by norm_num : ¬ (1 : ℚ) < ((1 : ℤ) : ℚ) * 1)]
  rw [tickListMul, show ((1 : ℤ) - 0 + 1).toNat = 2 by decide,
    show List.range 2 = [0, 1] from rfl]
  norm_num

/-- Witness for C3 at `start = 0`, `stop = 1`, `count = 1`: the produced
list is `[0, 1]` and the tick `1` lies inside the domain. -/
theorem C3_witness :
    (0 : ℚ) < 1 ∧ (0 : ℤ) < 1 ∧ ticks (0 : ℚ) 1 1 = some [0, 1] ∧
      ((0 : ℚ) ≤ 1 ∧ (1 : ℚ) ≤ 1) := by
  refine ⟨by norm_num, by norm_num, ticks_0_1_1, ?_⟩
  exact C3_ticks_within_domain 0 1 1 (by norm_num) (by norm_num) [0, 1]
    ticks_0_1_1 1 (by simp)

/-- Witness for C7's classifier clause at the tick `10`. -/
theorem C7_witness :
    (10 : ℚ) ∈ ([1,2,3,4,5,6,7,8,9,10,20,30,40,50,60,70,80,90,
                 100,200,300,400,500,600,700,800,900,1000] : List ℚ) ∧
      (is_major 10 (10 : ℚ) = some true ↔ (10 : ℚ) ∈ ([1, 10, 100, 1000] : List ℚ)) := by
  have hmem : (10 : ℚ) ∈ ([1,2,3,4,5,6,7,8,9,10,20,30,40,50,60,70,80,90,
      100,200,300,400,500,600,700,800,900,1000] : List ℚ) := by
    norm_num [List.mem_cons]
  exact ⟨hmem, C7_log_ticks_major_minor.2.2 10 hmem⟩
